import Mathlib

/-!
Verification of the NTM (nondeterministic Turing machine) tracer
`traceTM_spickfor.py`. The Python program is shallowly embedded below:
tapes (Python strings) become `List Char`, the mutable counters
`transition_count` / `non_leaf_count` are threaded explicitly, the
`for depth in range(max_depth)` loop becomes fuel recursion, and the
text written to the output file is modelled as one `String`.
-/

/-- One transition rule, a row `(fromState, readSymbol, toState, writeSymbol,
move)` of the CSV table.  Per the machine-definition format, read and write
symbols are single characters, so they are embedded as `Char`; the move is
kept as a raw string because the code compares it to "R" and "L" and treats
every other token as "stay". -/
structure Rule where
  fromState : String
  readSym : Char
  toState : String
  writeSym : Char
  move : String
deriving DecidableEq

/-- The parsed machine definition (the fields of `parse_csv` that
`simulate_ntm` uses; the alphabets are read but never consulted). -/
structure TMDef where
  name : String
  startState : String
  acceptState : String
  rejectState : String
  transitions : List Rule
deriving DecidableEq

/-- A configuration `(left, state, right)`: tape to the left of the head,
current state, and tape from the head rightwards (head symbol first). -/
structure Config where
  left : List Char
  state : String
  right : List Char
deriving DecidableEq

/-- `right[0] if right else "_"` (line 64): the symbol under the head,
defaulting to blank on an empty right tape. -/
def headSym (right : List Char) : Char :=
  match right with
  | [] => '_'
  | c :: _ => c

/-- `right[1:] if len(right) > 1 else "_"` (line 74, the Right-move case):
the tape after the head, defaulting to a single blank. -/
def restOrBlank (right : List Char) : List Char :=
  if right.length > 1 then right.drop 1 else ['_']

/-- `right[1:] if len(right) > 1 else ""` (lines 77 and 85, the Left and
Stay cases): the tape after the head, defaulting to the empty string. -/
def restOrEmpty (right : List Char) : List Char :=
  if right.length > 1 then right.drop 1 else []

/-- Applying one matching rule to `(left, right)` (lines 72-88): the
successor configuration appended to `new_configurations`. -/
def applyRule (left : List Char) (right : List Char) (t : Rule) : Config :=
  if t.move = "R" then
    ⟨left ++ [t.writeSym], t.toState, restOrBlank right⟩
  else if t.move = "L" then
    match left.getLast? with
    | some ch => ⟨left.dropLast, t.toState, ch :: t.writeSym :: restOrEmpty right⟩
    | none => ⟨[], t.toState, t.writeSym :: restOrEmpty right⟩
  else
    ⟨left, t.toState, t.writeSym :: restOrEmpty right⟩

/-- `t_state == state and t_head == head` (line 70): does rule `t` fire for
a configuration in `state` reading `head`? -/
def ruleMatches (state : String) (head : Char) (t : Rule) : Bool :=
  t.fromState == state && t.readSym == head

/-- `(state, head) in explicit_transitions` (lines 42 and 92): membership of
the pair in the set of explicitly defined (state, symbol) pairs. -/
def isExplicit (M : TMDef) (state : String) (head : Char) : Bool :=
  M.transitions.any (ruleMatches state head)

/-- What processing one non-accept, non-reject configuration contributes
(lines 64-98): successors appended to `new_configurations`, the total added
to `transition_count`, and the final value of `branch_has_transitions`. -/
structure StepOut where
  succs : List Config
  dTrans : Nat
  hadOut : Bool
deriving DecidableEq

/-- The expansion of one configuration (lines 64-94).  Each rule that
matches appends one successor and adds 1 to `transition_count`
(so the explicit contribution is the number of matching rules, and
`branch_has_transitions` is true iff at least one matched); when the
(state, head) pair has no explicit rule, one implicit reject transition is
counted and the flag is forced true, with no successor appended. -/
def stepConfig (M : TMDef) (c : Config) : StepOut :=
  let head := headSym c.right
  let matched := M.transitions.filter (ruleMatches c.state head)
  let succs := matched.map (applyRule c.left c.right)
  if isExplicit M c.state head then
    ⟨succs, matched.length, !matched.isEmpty⟩
  else
    ⟨succs, matched.length + 1, true⟩

/-- Result of the `for config in configurations[-1]` loop (lines 46-98):
either the early `return` on an accepting configuration (line 49-59), with
the counter values at that moment, or the completed next level with the
updated counters. -/
inductive LevelResult where
  | accepted (trans nonLeaf : Nat)
  | done (next : List Config) (trans nonLeaf : Nat)
deriving DecidableEq

/-- `transition_count` as of the loop's outcome. -/
def LevelResult.transCount : LevelResult → Nat
  | .accepted t _ => t
  | .done _ t _ => t

/-- `non_leaf_count` as of the loop's outcome. -/
def LevelResult.nlCount : LevelResult → Nat
  | .accepted _ n => n
  | .done _ _ n => n

/-- The inner loop over the current level (lines 46-98): `acc` is
`new_configurations` built so far, `t` and `n` are `transition_count` and
`non_leaf_count`.  An accepting configuration returns immediately; a
rejecting one adds one transition and is skipped (`continue`); any other
configuration is expanded by `stepConfig`, contributing its successors,
its transition count, and one non-leaf increment when it had an outgoing
transition. -/
def processLevel (M : TMDef) : List Config → List Config → Nat → Nat → LevelResult
  | [], acc, t, n => .done acc t n
  | c :: rest, acc, t, n =>
    if c.state = M.acceptState then
      .accepted t n
    else if c.state = M.rejectState then
      processLevel M rest acc (t + 1) n
    else
      let s := stepConfig M c
      processLevel M rest (acc ++ s.succs) (t + s.dTrans)
        (n + if s.hadOut then 1 else 0)

/-- The terminal state of a run: accept or reject reported at a depth,
or the `for` loop exhausting `max_depth` (lines 114-115). -/
inductive Outcome where
  | accepted (depth : Nat)
  | rejected (depth : Nat)
  | depthExhausted
deriving DecidableEq

/-- What a run leaves behind: the outcome, the retained `configurations`
list of levels, and the final counters. -/
structure SimResult where
  outcome : Outcome
  levels : List (List Config)
  trans : Nat
  nonLeaf : Nat
deriving DecidableEq

/-- The `for depth in range(max_depth)` loop (lines 44-112).  `prev` holds
the levels of `configurations` before the current one, `cur` the current
level (`configurations[-1]`), so `configurations = prev ++ [cur]`; `depth`
is the loop index and `fuel` the remaining iterations.  Acceptance and an
empty next level stop at the current depth; otherwise the new level is
appended and the loop continues, falling off the end into depth
exhaustion. -/
def simLoop (M : TMDef) : Nat → Nat → List (List Config) → List Config → Nat → Nat → SimResult
  | 0, _, prev, cur, t, n => ⟨.depthExhausted, prev ++ [cur], t, n⟩
  | fuel + 1, depth, prev, cur, t, n =>
    match processLevel M cur [] t n with
    | .accepted t2 n2 => ⟨.accepted depth, prev ++ [cur], t2, n2⟩
    | .done next t2 n2 =>
      if next = [] then ⟨.rejected depth, prev ++ [cur], t2, n2⟩
      else simLoop M fuel (depth + 1) (prev ++ [cur]) next t2 n2

/-- `simulate_ntm` (lines 24-115) as a function of the parsed machine, the
input string and `max_depth`.  Line 37: the initial level holds the single
configuration `("", start_state, input_string)` — the input string is used
as the right tape verbatim, with no blank substitution. -/
def simulate_ntm (M : TMDef) (input : List Char) (maxDepth : Nat) : SimResult :=
  simLoop M maxDepth 0 [] [⟨[], M.startState, input⟩] 0 0

/-- The single quote character (codepoint 39), with which Python `repr`
delimits strings. -/
def quoteCh : Char := Char.ofNat 39

/-- Python `repr` of a string, as it appears inside the printed tuple:
the text between single quotes.  (Faithful for the state names and tape
symbols that occur here, which contain no quotes, backslashes or
unprintable characters.) -/
def pyStrRepr (s : String) : String :=
  String.mk (quoteCh :: (s.data ++ [quoteCh]))

/-- `f"  {config}\n"` (lines 124 and 150) renders the configuration tuple
with Python tuple `repr`: `('left', 'state', 'right')`. -/
def configRepr (c : Config) : String :=
  "(" ++ pyStrRepr (String.mk c.left) ++ ", " ++ pyStrRepr c.state ++ ", "
    ++ pyStrRepr (String.mk c.right) ++ ")"

/-- Nearest-integer value of `100 * t / n` with ties to even: models how
Python renders the float `t / n` with the `.2f` format (the exact rational
is rounded here; a halfway case that is not exactly representable in
binary may round differently in Python, but no such case is at issue in
the claims). -/
def round100 (t n : Nat) : Nat :=
  let q := (100 * t) / n
  let r := (100 * t) % n
  if 2 * r < n then q
  else if n < 2 * r then q + 1
  else if q % 2 = 0 then q else q + 1

/-- Two-digit, zero-padded decimal rendering of `k` (the fractional part
of the `.2f` format). -/
def pad2 (k : Nat) : String :=
  if k < 10 then "0" ++ toString k else toString k

/-- `f"{transition_count / non_leaf_count:.2f}"` (lines 128-129 and
154-155): the ratio `t / n` rendered to two decimal places. -/
def fmt2 (t n : Nat) : String :=
  toString (round100 t n / 100) ++ "." ++ pad2 (round100 t n % 100)

/-- The 46-character `=` separator line ending each trace block
(lines 132 and 158). -/
def sepLine : String :=
  "==============================================\n"

/-- The `for config in configs` body of `write_trace` (lines 123-124):
one indented repr line per configuration. -/
def writeTraceConfigLines : List Config → String
  | [] => ""
  | c :: rest => "  " ++ configRepr c ++ "\n" ++ writeTraceConfigLines rest

/-- The `for depth, configs in enumerate(configurations)` loop of
`write_trace` (lines 121-124). -/
def writeTraceLevels (depth : Nat) : List (List Config) → String
  | [] => ""
  | l :: rest =>
    "Depth " ++ toString depth ++ ":\n" ++ writeTraceConfigLines l
      ++ writeTraceLevels (depth + 1) rest

/-- The full text built by `write_trace` (lines 118-132): header, per-depth
configuration dump, the two totals, the nondeterminism line (ratio to two
decimals, or the undefined marker when `non_leaf_count` is 0), and the
separator. -/
def write_trace_text (levels : List (List Config)) (t n : Nat) : String :=
  "Trace:\n" ++ writeTraceLevels 0 levels
    ++ "Total transitions: " ++ toString t ++ "\n"
    ++ "Total non-leaf nodes: " ++ toString n ++ "\n"
    ++ (if n > 0 then "Nondeterminism: " ++ fmt2 t n ++ "\n"
        else "Nondeterminism: Undefined (no non-leaf nodes)\n")
    ++ sepLine

/-- The `for config in configs` body of `print_trace` (lines 149-150). -/
def printTraceConfigLines : List Config → String
  | [] => ""
  | c :: rest => "  " ++ configRepr c ++ "\n" ++ printTraceConfigLines rest

/-- The `for depth, configs in enumerate(configurations)` loop of
`print_trace` (lines 147-150). -/
def printTraceLevels (depth : Nat) : List (List Config) → String
  | [] => ""
  | l :: rest =>
    "Depth " ++ toString depth ++ ":\n" ++ printTraceConfigLines l
      ++ printTraceLevels (depth + 1) rest

/-- The full text built by `print_trace` (lines 144-158), transcribed from
that function's own body. -/
def print_trace_text (levels : List (List Config)) (t n : Nat) : String :=
  "Trace:\n" ++ printTraceLevels 0 levels
    ++ "Total transitions: " ++ toString t ++ "\n"
    ++ "Total non-leaf nodes: " ++ toString n ++ "\n"
    ++ (if n > 0 then "Nondeterminism: " ++ fmt2 t n ++ "\n"
        else "Nondeterminism: Undefined (no non-leaf nodes)\n")
    ++ sepLine

/-- The two header lines written when the output file is opened
(lines 30-31). -/
def headerText (name : String) (input : List Char) : String :=
  "Machine: " ++ name ++ "\n" ++ "Input String: " ++ String.mk input ++ "\n\n"

/-- The accept message (lines 51-54). -/
def acceptMsg (depth : Nat) : String :=
  "Depth of Tree of configurations: " ++ toString depth ++ "\n"
    ++ "Accepted in " ++ toString depth ++ " transitions.\n\n"

/-- The reject message (lines 102-105). -/
def rejectMsg (depth : Nat) : String :=
  "Rejected in " ++ toString depth ++ " transitions.\n"
    ++ "Depth of Tree of configurations: " ++ toString depth ++ "\n\n"

/-- Everything `simulate_ntm` writes to `output_file`, concatenated in
write order: the header (lines 30-31), then on accept the message plus
`print_trace` (lines 57-58), on reject the message plus `print_trace`
(lines 108-109), and on depth exhaustion the `write_trace` text
(line 115).  (The console additionally sees the same text plus the
"Max depth reached." notice; only the file contents are modelled.) -/
def fileOutput (M : TMDef) (input : List Char) (maxDepth : Nat) : String :=
  let r := simulate_ntm M input maxDepth
  headerText M.name input ++
    match r.outcome with
    | .accepted d => acceptMsg d ++ print_trace_text r.levels r.trans r.nonLeaf
    | .rejected d => rejectMsg d ++ print_trace_text r.levels r.trans r.nonLeaf
    | .depthExhausted => write_trace_text r.levels r.trans r.nonLeaf

/-- Does `pat` occur at the start of `s`? (helper for substring facts) -/
def startsWithList : List Char → List Char → Bool
  | _, [] => true
  | [], _ :: _ => false
  | a :: as, b :: bs => a == b && startsWithList as bs

/-- Does `pat` occur anywhere in `s`? (helper for substring facts) -/
def containsSub : List Char → List Char → Bool
  | [], pat => startsWithList [] pat
  | a :: rest, pat => startsWithList (a :: rest) pat || containsSub rest pat

/-- A machine with an empty transition table: no rule for
`(startState, a)` or for any other pair. -/
def M0 : TMDef := ⟨"M0", "q0", "qa", "qr", []⟩

/-- A machine that loops in place forever on `a` (stay move), so every
run on input "a" exhausts the depth bound. -/
def Mloop : TMDef := ⟨"Mloop", "q0", "qa", "qr", [⟨"q0", 'a', "q0", 'a', "S"⟩]⟩

/-- A machine that accepts input "a" after one transition: on `a` it
moves right into the accept state. -/
def Macc : TMDef := ⟨"Macc", "q0", "qa", "qr", [⟨"q0", 'a', "qa", 'a', "R"⟩]⟩

/-! ### Basic unfolding lemmas -/

lemma simLoop_zero (M : TMDef) (depth : Nat) (prev : List (List Config))
    (cur : List Config) (t n : Nat) :
    simLoop M 0 depth prev cur t n = ⟨.depthExhausted, prev ++ [cur], t, n⟩ := rfl

lemma simLoop_succ (M : TMDef) (fuel depth : Nat) (prev : List (List Config))
    (cur : List Config) (t n : Nat) :
    simLoop M (fuel + 1) depth prev cur t n =
      match processLevel M cur [] t n with
      | .accepted t2 n2 => ⟨.accepted depth, prev ++ [cur], t2, n2⟩
      | .done next t2 n2 =>
        if next = [] then ⟨.rejected depth, prev ++ [cur], t2, n2⟩
        else simLoop M fuel (depth + 1) (prev ++ [cur]) next t2 n2 := rfl

lemma processLevel_cons_accept (M : TMDef) (c : Config) (rest acc : List Config)
    (t n : Nat) (hc : c.state = M.acceptState) :
    processLevel M (c :: rest) acc t n = .accepted t n := by
  simp [processLevel, hc]

lemma processLevel_cons_reject (M : TMDef) (c : Config) (rest acc : List Config)
    (t n : Nat) (ha : c.state ≠ M.acceptState) (hr : c.state = M.rejectState) :
    processLevel M (c :: rest) acc t n = processLevel M rest acc (t + 1) n := by
  simp only [processLevel]
  rw [if_neg ha, if_pos hr]

lemma processLevel_cons_step (M : TMDef) (c : Config) (rest acc : List Config)
    (t n : Nat) (ha : c.state ≠ M.acceptState) (hr : c.state ≠ M.rejectState) :
    processLevel M (c :: rest) acc t n =
      processLevel M rest (acc ++ (stepConfig M c).succs) (t + (stepConfig M c).dTrans)
        (n + if (stepConfig M c).hadOut then 1 else 0) := by
  simp [processLevel, ha, hr]

/-! ### The inner loop returns `accepted` exactly when the level holds an
accepting configuration -/

lemma processLevel_accepted_iff (M : TMDef) (cfgs : List Config) :
    ∀ (acc : List Config) (t n : Nat),
    (∃ t2 n2, processLevel M cfgs acc t n = .accepted t2 n2) ↔
      ∃ c ∈ cfgs, c.state = M.acceptState := by
  induction cfgs with
  | nil => intro acc t n; simp [processLevel]
  | cons c rest ih =>
    intro acc t n
    by_cases hc : c.state = M.acceptState
    · rw [processLevel_cons_accept M c rest acc t n hc]
      exact ⟨fun _ => ⟨c, by simp, hc⟩, fun _ => ⟨t, n, rfl⟩⟩
    · by_cases hr : c.state = M.rejectState
      · rw [processLevel_cons_reject M c rest acc t n hc hr, ih]
        simp [hc]
      · rw [processLevel_cons_step M c rest acc t n hc hr, ih]
        simp [hc]

lemma processLevel_done_no_accept (M : TMDef) (cfgs acc : List Config) (t n : Nat)
    (next : List Config) (t2 n2 : Nat)
    (h : processLevel M cfgs acc t n = .done next t2 n2) :
    ∀ c ∈ cfgs, c.state ≠ M.acceptState := by
  intro c hc hacc
  obtain ⟨t3, n3, h3⟩ := (processLevel_accepted_iff M cfgs acc t n).mpr ⟨c, hc, hacc⟩
  rw [h] at h3
  exact LevelResult.noConfusion h3

/-! ### Processing stops at the first accepting configuration: the rest of
the level is never examined -/

lemma processLevel_stops_at_accept (M : TMDef) (pre : List Config) :
    ∀ (c : Config) (suf acc : List Config) (t n : Nat),
    c.state = M.acceptState →
    processLevel M (pre ++ c :: suf) acc t n = processLevel M (pre ++ [c]) acc t n := by
  induction pre with
  | nil =>
    intro c suf acc t n hc
    simp only [List.nil_append]
    rw [processLevel_cons_accept M c suf acc t n hc,
      processLevel_cons_accept M c [] acc t n hc]
  | cons p ps ih =>
    intro c suf acc t n hc
    by_cases hp : p.state = M.acceptState
    · simp only [List.cons_append]
      rw [processLevel_cons_accept M p _ acc t n hp,
        processLevel_cons_accept M p _ acc t n hp]
    · by_cases hr : p.state = M.rejectState
      · simp only [List.cons_append]
        rw [processLevel_cons_reject M p _ acc t n hp hr,
          processLevel_cons_reject M p _ acc t n hp hr, ih c suf acc (t + 1) n hc]
      · simp only [List.cons_append]
        rw [processLevel_cons_step M p _ acc t n hp hr,
          processLevel_cons_step M p _ acc t n hp hr, ih c suf _ _ _ hc]

/-! ### Shape of the retained level list -/

lemma simLoop_levels_shape (M : TMDef) (fuel : Nat) :
    ∀ (depth : Nat) (prev : List (List Config)) (cur : List Config) (t n : Nat),
    ∃ rest, (simLoop M fuel depth prev cur t n).levels = prev ++ cur :: rest := by
  induction fuel with
  | zero => intro depth prev cur t n; exact ⟨[], by simp [simLoop_zero]⟩
  | succ fuel ih =>
    intro depth prev cur t n
    rw [simLoop_succ]
    cases h : processLevel M cur [] t n with
    | accepted t2 n2 => exact ⟨[], by simp⟩
    | done next t2 n2 =>
      by_cases hnext : next = []
      · exact ⟨[], by simp [hnext]⟩
      · obtain ⟨rest, hrest⟩ := ih (depth + 1) (prev ++ [cur]) next t2 n2
        refine ⟨next :: rest, ?_⟩
        simp [hnext, hrest]

/-! ### Counter invariant: each non-leaf increment comes with at least one
transition increment -/

lemma stepConfig_dTrans_pos (M : TMDef) (c : Config)
    (h : (stepConfig M c).hadOut = true) : 1 ≤ (stepConfig M c).dTrans := by
  unfold stepConfig at h ⊢
  by_cases he : isExplicit M c.state (headSym c.right)
  · simp only [he, if_pos, if_true] at h ⊢
    have : M.transitions.filter (ruleMatches c.state (headSym c.right)) ≠ [] := by
      intro hnil
      rw [hnil] at h
      simp at h
    have := List.length_pos.mpr this
    omega
  · simp [he]

lemma processLevel_trans_ge (M : TMDef) (cfgs : List Config) :
    ∀ (acc : List Config) (t n : Nat), n ≤ t →
    (processLevel M cfgs acc t n).nlCount ≤ (processLevel M cfgs acc t n).transCount := by
  induction cfgs with
  | nil =>
    intro acc t n h
    simpa [processLevel, LevelResult.nlCount, LevelResult.transCount] using h
  | cons c rest ih =>
    intro acc t n h
    by_cases hc : c.state = M.acceptState
    · rw [processLevel_cons_accept M c rest acc t n hc]
      simpa [LevelResult.nlCount, LevelResult.transCount] using h
    · by_cases hr : c.state = M.rejectState
      · rw [processLevel_cons_reject M c rest acc t n hc hr]
        exact ih _ _ _ (by omega)
      · rw [processLevel_cons_step M c rest acc t n hc hr]
        apply ih
        by_cases ho : (stepConfig M c).hadOut
        · have := stepConfig_dTrans_pos M c ho
          simp only [ho, if_true]
          omega
        · simp only [Bool.not_eq_true] at ho
          simp only [ho, Bool.false_eq_true, if_false]
          omega

lemma simLoop_trans_ge (M : TMDef) (fuel : Nat) :
    ∀ (depth : Nat) (prev : List (List Config)) (cur : List Config) (t n : Nat),
    n ≤ t →
    (simLoop M fuel depth prev cur t n).nonLeaf ≤ (simLoop M fuel depth prev cur t n).trans := by
  induction fuel with
  | zero => intro depth prev cur t n h; simpa [simLoop_zero] using h
  | succ fuel ih =>
    intro depth prev cur t n h
    have hpl := processLevel_trans_ge M cur [] t n h
    rw [simLoop_succ]
    cases hres : processLevel M cur [] t n with
    | accepted t2 n2 =>
      rw [hres] at hpl
      simpa [LevelResult.nlCount, LevelResult.transCount] using hpl
    | done next t2 n2 =>
      rw [hres] at hpl
      simp only [LevelResult.nlCount, LevelResult.transCount] at hpl
      by_cases hnext : next = []
      · simpa [hnext] using hpl
      · simpa [hnext] using ih (depth + 1) (prev ++ [cur]) next t2 n2 hpl

/-! ### The right tape of every configuration produced by a transition is
non-empty -/

lemma restOrBlank_ne_nil (right : List Char) : restOrBlank right ≠ [] := by
  unfold restOrBlank
  split
  · next hlen =>
    rw [Ne, List.drop_eq_nil_iff]
    omega
  · simp

lemma applyRule_right_ne_nil (left right : List Char) (t : Rule) :
    (applyRule left right t).right ≠ [] := by
  unfold applyRule
  by_cases hR : t.move = "R"
  · simp only [hR, if_pos, if_true]
    exact restOrBlank_ne_nil right
  · by_cases hL : t.move = "L"
    · simp only [hR, hL, if_false, if_pos, if_true]
      cases left.getLast? <;> simp
    · simp [hR, hL]

lemma stepConfig_succs_right_ne_nil (M : TMDef) (c : Config) :
    ∀ c2 ∈ (stepConfig M c).succs, c2.right ≠ [] := by
  intro c2 hc2
  unfold stepConfig at hc2
  by_cases he : isExplicit M c.state (headSym c.right) <;>
    simp only [he, if_pos, if_true, Bool.false_eq_true, if_false, List.mem_map] at hc2 <;>
    obtain ⟨r, _, rfl⟩ := hc2 <;>
    exact applyRule_right_ne_nil _ _ _

lemma processLevel_done_right_ne_nil (M : TMDef) (cfgs : List Config) :
    ∀ (acc : List Config) (t n : Nat) (next : List Config) (t2 n2 : Nat),
    (∀ c ∈ acc, c.right ≠ []) →
    processLevel M cfgs acc t n = .done next t2 n2 →
    ∀ c ∈ next, c.right ≠ [] := by
  induction cfgs with
  | nil =>
    intro acc t n next t2 n2 hacc h
    simp only [processLevel] at h
    cases h
    exact hacc
  | cons c rest ih =>
    intro acc t n next t2 n2 hacc h
    by_cases hc : c.state = M.acceptState
    · rw [processLevel_cons_accept M c rest acc t n hc] at h
      exact LevelResult.noConfusion h
    · by_cases hr : c.state = M.rejectState
      · rw [processLevel_cons_reject M c rest acc t n hc hr] at h
        exact ih _ _ _ _ _ _ hacc h
      · rw [processLevel_cons_step M c rest acc t n hc hr] at h
        refine ih _ _ _ _ _ _ ?_ h
        intro c2 hc2
        rcases List.mem_append.mp hc2 with h2 | h2
        · exact hacc c2 h2
        · exact stepConfig_succs_right_ne_nil M c c2 h2

lemma simLoop_right_ne_nil (M : TMDef) (fuel : Nat) :
    ∀ (depth : Nat) (prev : List (List Config)) (cur : List Config) (t n : Nat),
    (∀ L ∈ prev, ∀ c ∈ L, c.right ≠ []) → (∀ c ∈ cur, c.right ≠ []) →
    ∀ L ∈ (simLoop M fuel depth prev cur t n).levels, ∀ c ∈ L, c.right ≠ [] := by
  induction fuel with
  | zero =>
    intro depth prev cur t n hprev hcur L hL
    rw [simLoop_zero] at hL
    rcases List.mem_append.mp hL with h | h
    · exact hprev L h
    · rw [List.mem_singleton.mp h]; exact hcur
  | succ fuel ih =>
    intro depth prev cur t n hprev hcur L hL
    rw [simLoop_succ] at hL
    cases hres : processLevel M cur [] t n with
    | accepted t2 n2 =>
      rw [hres] at hL
      simp only at hL
      rcases List.mem_append.mp hL with h | h
      · exact hprev L h
      · rw [List.mem_singleton.mp h]; exact hcur
    | done next t2 n2 =>
      rw [hres] at hL
      simp only at hL
      have hnextok : ∀ c ∈ next, c.right ≠ [] :=
        processLevel_done_right_ne_nil M cur [] t n next t2 n2 (by simp) hres
      by_cases hnext : next = []
      · rw [if_pos hnext] at hL
        rcases List.mem_append.mp hL with h | h
        · exact hprev L h
        · rw [List.mem_singleton.mp h]; exact hcur
      · rw [if_neg hnext] at hL
        refine ih (depth + 1) (prev ++ [cur]) next t2 n2 ?_ hnextok L hL
        intro L2 hL2
        rcases List.mem_append.mp hL2 with h | h
        · exact hprev L2 h
        · rw [List.mem_singleton.mp h]; exact hcur

/-! ### Acceptance is reported at the depth of the first level containing
an accepting configuration -/

lemma simLoop_accept_spec (M : TMDef) (fuel : Nat) :
    ∀ (depth : Nat) (prev : List (List Config)) (cur : List Config) (t n d : Nat),
    (∀ L ∈ prev, ∀ c ∈ L, c.state ≠ M.acceptState) →
    depth = prev.length →
    (simLoop M fuel depth prev cur t n).outcome = .accepted d →
    ∃ L, (simLoop M fuel depth prev cur t n).levels[d]? = some L
      ∧ (∃ c ∈ L, c.state = M.acceptState)
      ∧ ∀ d2 L2, d2 < d → (simLoop M fuel depth prev cur t n).levels[d2]? = some L2 →
          ∀ c ∈ L2, c.state ≠ M.acceptState := by
  induction fuel with
  | zero =>
    intro depth prev cur t n d hprev hdep hout
    rw [simLoop_zero] at hout
    exact Outcome.noConfusion hout
  | succ fuel ih =>
    intro depth prev cur t n d hprev hdep hout
    rw [simLoop_succ] at hout ⊢
    cases hres : processLevel M cur [] t n with
    | accepted t2 n2 =>
      rw [hres] at hout
      simp only at hout ⊢
      have hd : depth = d := by
        cases hout
        rfl
      subst hd
      subst hdep
      refine ⟨cur, ?_, ?_, ?_⟩
      · exact List.getElem?_concat_length prev cur
      · exact (processLevel_accepted_iff M cur [] t n).mp ⟨t2, n2, hres⟩
      · intro d2 L2 hlt hget
        rw [List.getElem?_append] at hget
        rw [if_pos hlt] at hget
        exact hprev L2 (List.getElem?_mem hget)
    | done next t2 n2 =>
      rw [hres] at hout
      simp only at hout ⊢
      by_cases hnext : next = []
      · rw [if_pos hnext] at hout
        exact Outcome.noConfusion hout
      · rw [if_neg hnext] at hout ⊢
        have hcur : ∀ c ∈ cur, c.state ≠ M.acceptState :=
          processLevel_done_no_accept M cur [] t n next t2 n2 hres
        refine ih (depth + 1) (prev ++ [cur]) next t2 n2 d ?_ ?_ hout
        · intro L hL
          rcases List.mem_append.mp hL with h | h
          · exact hprev L h
          · rw [List.mem_singleton.mp h]; exact hcur
        · simp [hdep]

/-! ### Accuracy of the two-decimal rendering: the rounded value is within
half a hundredth of the exact ratio -/

lemma round100_close (t n : Nat) (hn : 0 < n) :
    2 * (100 * t) ≤ 2 * (round100 t n * n) + n ∧
    2 * (round100 t n * n) ≤ 2 * (100 * t) + n := by
  have hdm : 100 * t / n * n + 100 * t % n = 100 * t := Nat.div_add_mod' (100 * t) n
  have hlt : 100 * t % n < n := Nat.mod_lt _ hn
  simp only [round100]
  split_ifs with h1 h2 h3 <;> (try simp only [Nat.add_mul, Nat.one_mul]) <;> omega

/-! ### The two renderers build the same text -/

lemma writeConfigLines_eq_printConfigLines (cfgs : List Config) :
    writeTraceConfigLines cfgs = printTraceConfigLines cfgs := by
  induction cfgs with
  | nil => rfl
  | cons c rest ih => simp [writeTraceConfigLines, printTraceConfigLines, ih]

lemma writeTraceLevels_eq_printTraceLevels (levels : List (List Config)) :
    ∀ depth, writeTraceLevels depth levels = printTraceLevels depth levels := by
  induction levels with
  | nil => intro depth; rfl
  | cons l rest ih =>
    intro depth
    simp [writeTraceLevels, printTraceLevels,
      writeConfigLines_eq_printConfigLines, ih]

/-! ## The claims -/

/-- C1: for every configuration whose (state, head) pair matches no rule of
the transition table and whose state is neither the accept nor the reject
state, the expansion synthesizes exactly one implicit reject: the step
produces no successor, one transition-count unit and the outgoing flag, so
processing the configuration adds exactly 1 to `transition_count` and 1 to
`non_leaf_count` and appends nothing to the next level. -/
theorem claim1_implicit_reject_step (M : TMDef) (c : Config) (rest acc : List Config)
    (t n : Nat)
    (hno : ∀ r ∈ M.transitions, ruleMatches c.state (headSym c.right) r = false)
    (ha : c.state ≠ M.acceptState) (hr : c.state ≠ M.rejectState) :
    stepConfig M c = ⟨[], 1, true⟩ ∧
    processLevel M (c :: rest) acc t n = processLevel M rest acc (t + 1) (n + 1) := by
  have hfilter : M.transitions.filter (ruleMatches c.state (headSym c.right)) = [] :=
    List.filter_eq_nil_iff.mpr (fun r hr2 => by simp [hno r hr2])
  have hexp : isExplicit M c.state (headSym c.right) = false :=
    List.any_eq_false.mpr (fun r hr2 => by simp [hno r hr2])
  have hstep : stepConfig M c = ⟨[], 1, true⟩ := by
    unfold stepConfig
    simp [hfilter, hexp]
  refine ⟨hstep, ?_⟩
  rw [processLevel_cons_step M c rest acc t n ha hr, hstep]
  simp

/-- Witness for C1: in `M0` (empty transition table) the start configuration
reading `a` is implicitly rejected: one transition, one non-leaf, no
successor. -/
theorem claim1_witness :
    stepConfig M0 ⟨[], "q0", ['a']⟩ = ⟨[], 1, true⟩ ∧
    processLevel M0 [⟨[], "q0", ['a']⟩] [] 0 0 = processLevel M0 [] [] 1 1 :=
  claim1_implicit_reject_step M0 ⟨[], "q0", ['a']⟩ [] [] 0 0
    (by decide) (by decide) (by decide)

/-- C2: when a run accepts, it accepts at the current depth: the level at
the reported depth contains an accepting configuration, no earlier level
does (depth minimality over the breadth-first levels), and processing stops
at the first accepting configuration in level order — the siblings after it
are never examined (the result is the same whatever follows it in the
level). -/
theorem claim2_accept_shallowest (M : TMDef) (input : List Char) (maxDepth d : Nat)
    (h : (simulate_ntm M input maxDepth).outcome = .accepted d) :
    (∃ L, (simulate_ntm M input maxDepth).levels[d]? = some L ∧
      ∃ c ∈ L, c.state = M.acceptState) ∧
    (∀ d2 L2, d2 < d → (simulate_ntm M input maxDepth).levels[d2]? = some L2 →
      ∀ c ∈ L2, c.state ≠ M.acceptState) ∧
    (∀ (pre suf acc : List Config) (c : Config) (t n : Nat),
      c.state = M.acceptState →
      processLevel M (pre ++ c :: suf) acc t n = processLevel M (pre ++ [c]) acc t n) := by
  simp only [simulate_ntm] at h ⊢
  obtain ⟨L, h1, h2, h3⟩ :=
    simLoop_accept_spec M maxDepth 0 [] [⟨[], M.startState, input⟩] 0 0 d
      (by simp) (by simp) h
  exact ⟨⟨L, h1, h2⟩, h3, fun pre suf acc c t n hc =>
    processLevel_stops_at_accept M pre c suf acc t n hc⟩

/-- Witness for C2: `Macc` on "a" accepts at depth 1, and level 1 indeed
holds a configuration in the accept state. -/
theorem claim2_witness :
    (simulate_ntm Macc ['a'] 20).outcome = .accepted 1 ∧
    (∃ L, (simulate_ntm Macc ['a'] 20).levels[1]? = some L ∧
      ∃ c ∈ L, c.state = Macc.acceptState) :=
  ⟨by decide, (claim2_accept_shallowest Macc ['a'] 20 1 (by decide)).1⟩

/-- C3 counterexample: a depth-exhausted run (`Mloop` on "a" with
maxDepth 2) does write the per-level trace to the output file — the claim
that no trace is emitted in this terminal state is false: the file text
contains the per-depth configuration dump and the totals. -/
theorem claim3_counterexample :
    (simulate_ntm Mloop ['a'] 2).outcome = .depthExhausted ∧
    containsSub (fileOutput Mloop ['a'] 2).data "Trace:\nDepth 0:\n".data = true ∧
    containsSub (fileOutput Mloop ['a'] 2).data "Depth 2:\n".data = true ∧
    containsSub (fileOutput Mloop ['a'] 2).data "Total transitions: 2".data = true := by
  decide

/-- C3 (amended): when the run exhausts `maxDepth` the file receives the
header followed by the full `write_trace` text (per-level dump, totals,
nondeterminism line, separator) and nothing else — in particular neither
the accept nor the reject message, so the trace file lacks a verdict
line. -/
theorem claim3_depth_exhausted_output (M : TMDef) (input : List Char) (maxDepth : Nat)
    (h : (simulate_ntm M input maxDepth).outcome = .depthExhausted) :
    fileOutput M input maxDepth =
      headerText M.name input ++
        write_trace_text (simulate_ntm M input maxDepth).levels
          (simulate_ntm M input maxDepth).trans (simulate_ntm M input maxDepth).nonLeaf := by
  simp only [fileOutput]
  rw [h]

/-- Witness for C3: the depth-exhausted run of `Mloop` on "a" with
maxDepth 2 produces exactly header-plus-trace output. -/
theorem claim3_witness :
    (simulate_ntm Mloop ['a'] 2).outcome = .depthExhausted ∧
    fileOutput Mloop ['a'] 2 =
      headerText Mloop.name ['a'] ++
        write_trace_text (simulate_ntm Mloop ['a'] 2).levels
          (simulate_ntm Mloop ['a'] 2).trans (simulate_ntm Mloop ['a'] 2).nonLeaf :=
  ⟨by decide, claim3_depth_exhausted_output Mloop ['a'] 2 (by decide)⟩

/-- C4 counterexample: on the empty input string the initial right tape is
the empty string, not `[blank]`: level 0 of the run of `M0` on "" is
`[("", "q0", "")]`, which differs from `[("", "q0", "_")]`. -/
theorem claim4_counterexample :
    (simulate_ntm M0 [] 1).levels.head? = some [⟨[], "q0", []⟩] ∧
    some [(⟨[], "q0", []⟩ : Config)] ≠ some [(⟨[], "q0", ['_']⟩ : Config)] := by
  decide

/-- C4 (amended): for every call, the initial level is exactly
`[⟨[], startState, inputString⟩]`: empty left tape, the definition's start
state, and the right tape equal to the input string verbatim — also when
the input string is empty (no blank is substituted at initialization; the
blank only appears when the head is read). -/
theorem claim4_initial_configuration (M : TMDef) (input : List Char) (maxDepth : Nat) :
    (simulate_ntm M input maxDepth).levels.head? = some [⟨[], M.startState, input⟩] := by
  obtain ⟨rest, hrest⟩ :=
    simLoop_levels_shape M maxDepth 0 [] [⟨[], M.startState, input⟩] 0 0
  simp only [simulate_ntm, hrest, List.nil_append, List.head?_cons]

/-- C5 counterexample: a Stay move on a length-1 right tape yields
`[writeSymbol]` with no blank appended: with rule ("q0", a, "q1", b, "S")
and right tape "a" the successor right tape is "b", not "b_". -/
theorem claim5_counterexample :
    applyRule [] ['a'] ⟨"q0", 'a', "q1", 'b', "S"⟩ = ⟨[], "q1", ['b']⟩ ∧
    (⟨[], "q1", ['b']⟩ : Config) ≠ ⟨[], "q1", ['b', '_']⟩ := by
  decide

/-- C5 (amended): the "rest of right after head" is the tail of the right
tape excluding its first element, but it defaults to `[blank]` only for
Right moves; for Left moves (both with an empty and with a non-empty left
tape) and for Stay moves an empty tail defaults to the empty sequence, so
a Stay move on a length-1 right tape yields `[writeSymbol]` alone, with no
blank. -/
theorem claim5_rest_after_head (left right : List Char) (t : Rule) :
    (t.move = "R" →
      applyRule left right t =
        ⟨left ++ [t.writeSym], t.toState,
          if right.length > 1 then right.drop 1 else ['_']⟩) ∧
    (t.move ≠ "R" → t.move = "L" → left = [] →
      applyRule left right t =
        ⟨[], t.toState,
          t.writeSym :: (if right.length > 1 then right.drop 1 else [])⟩) ∧
    (t.move ≠ "R" → t.move = "L" → ∀ (l0 : List Char) (ch : Char),
      left = l0 ++ [ch] →
      applyRule left right t =
        ⟨l0, t.toState,
          ch :: t.writeSym :: (if right.length > 1 then right.drop 1 else [])⟩) ∧
    (t.move ≠ "R" → t.move ≠ "L" →
      applyRule left right t =
        ⟨left, t.toState,
          t.writeSym :: (if right.length > 1 then right.drop 1 else [])⟩) ∧
    (t.move ≠ "R" → t.move ≠ "L" → ∀ x : Char,
      applyRule left [x] t = ⟨left, t.toState, [t.writeSym]⟩) := by
  refine ⟨fun hR => ?_, fun hR hL hleft => ?_, fun hR hL l0 ch hleft => ?_,
    fun hR hL => ?_, fun hR hL x => ?_⟩
  · simp [applyRule, hR, restOrBlank]
  · simp [applyRule, hR, hL, hleft, restOrEmpty]
  · subst hleft
    simp [applyRule, hR, hL, restOrEmpty, List.getLast?_concat, List.dropLast_concat]
  · simp [applyRule, hR, hL, restOrEmpty]
  · simp [applyRule, hR, hL, restOrEmpty]

/-- Witness for C5: a Stay move ("S") on right tape "a" writing `b`. -/
theorem claim5_witness :
    applyRule [] ['a'] ⟨"q0", 'a', "q1", 'b', "S"⟩ = ⟨[], "q1", ['b']⟩ ∧
    applyRule ['x'] ['a'] ⟨"q0", 'a', "q1", 'b', "L"⟩ = ⟨[], "q1", ['x', 'b']⟩ :=
  ⟨(claim5_rest_after_head [] ['a'] ⟨"q0", 'a', "q1", 'b', "S"⟩).2.2.2.2
    (by decide) (by decide) 'a',
   (claim5_rest_after_head ['x'] ['a'] ⟨"q0", 'a', "q1", 'b', "L"⟩).2.2.1
    (by decide) (by decide) [] 'x' (by decide)⟩

/-- C6: at every point — from any counter state with
transitionCount ≥ nonLeafCount, in particular anywhere inside a run —
processing (any prefix of) a level keeps transitionCount ≥ nonLeafCount;
a configuration already in the reject state contributes exactly one
transition increment, no non-leaf increment and no successor (it is dropped
from the next level); and every finished run satisfies
transitionCount ≥ nonLeafCount. -/
theorem claim6_trans_ge_nonleaf (M : TMDef) :
    (∀ (cfgs acc : List Config) (t n : Nat), n ≤ t →
      (processLevel M cfgs acc t n).nlCount ≤ (processLevel M cfgs acc t n).transCount) ∧
    (∀ (c : Config) (rest acc : List Config) (t n : Nat),
      c.state ≠ M.acceptState → c.state = M.rejectState →
      processLevel M (c :: rest) acc t n = processLevel M rest acc (t + 1) n) ∧
    (∀ (input : List Char) (maxDepth : Nat),
      (simulate_ntm M input maxDepth).nonLeaf ≤ (simulate_ntm M input maxDepth).trans) := by
  refine ⟨fun cfgs acc t n h => processLevel_trans_ge M cfgs acc t n h,
    fun c rest acc t n ha hr => processLevel_cons_reject M c rest acc t n ha hr,
    fun input maxDepth => ?_⟩
  simp only [simulate_ntm]
  exact simLoop_trans_ge M maxDepth 0 [] _ 0 0 (Nat.le_refl 0)

/-- Witness for C6: the invariant on a concrete level of `M0`, and the
reject-state step on a concrete rejecting configuration. -/
theorem claim6_witness :
    (0 ≤ 0 ∧
      (processLevel M0 [⟨[], "q0", ['a']⟩] [] 0 0).nlCount ≤
        (processLevel M0 [⟨[], "q0", ['a']⟩] [] 0 0).transCount) ∧
    processLevel M0 [⟨[], "qr", []⟩] [] 0 0 = processLevel M0 [] [] 1 0 :=
  ⟨⟨Nat.le_refl 0,
    (claim6_trans_ge_nonleaf M0).1 [⟨[], "q0", ['a']⟩] [] 0 0 (Nat.le_refl 0)⟩,
   (claim6_trans_ge_nonleaf M0).2.1 ⟨[], "qr", []⟩ [] [] 0 0 (by decide) (by decide)⟩

/-- C7 counterexample: on the empty input string the initial level already
contains a configuration with an empty right tape — the run of `M0` on ""
violates the claimed invariant. -/
theorem claim7_counterexample :
    ¬ (∀ L ∈ (simulate_ntm M0 [] 1).levels, ∀ c ∈ L, c.right ≠ []) := by
  decide

/-- C7 (amended): provided the input string is non-empty, every
configuration in every level of the run has a non-empty right tape: a tape
update that would leave it empty substitutes a blank (Right moves) or
re-inserts the written symbol (Left and Stay moves). -/
theorem claim7_right_tape_nonempty (M : TMDef) (input : List Char) (maxDepth : Nat)
    (h : input ≠ []) :
    ∀ L ∈ (simulate_ntm M input maxDepth).levels, ∀ c ∈ L, c.right ≠ [] := by
  simp only [simulate_ntm]
  apply simLoop_right_ne_nil
  · simp
  · intro c hc
    rw [List.mem_singleton.mp hc]
    exact h

/-- Witness for C7: the run of `M0` on "a" keeps all right tapes
non-empty. -/
theorem claim7_witness :
    (['a'] : List Char) ≠ [] ∧
    ∀ L ∈ (simulate_ntm M0 ['a'] 1).levels, ∀ c ∈ L, c.right ≠ [] :=
  ⟨by decide, claim7_right_tape_nonempty M0 ['a'] 1 (by decide)⟩

/-- C8: the concrete deterministic-reject scenario: `M0` has no rule for
(startState, a); on input "a" the level after depth 0 comes out empty, the
run reports rejection at depth 0, the totals are transitionCount = 1 (the
implicit reject) and nonLeafCount = 1, and the nondeterminism ratio is
rendered "1.00"; the file contains "Rejected in 0 transitions." and
"Nondeterminism: 1.00". -/
theorem claim8_deterministic_reject :
    processLevel M0 [⟨[], "q0", ['a']⟩] [] 0 0 = .done [] 1 1 ∧
    simulate_ntm M0 ['a'] 20 = ⟨.rejected 0, [[⟨[], "q0", ['a']⟩]], 1, 1⟩ ∧
    fmt2 1 1 = "1.00" ∧
    containsSub (fileOutput M0 ['a'] 20).data "Rejected in 0 transitions.".data = true ∧
    containsSub (fileOutput M0 ['a'] 20).data "Nondeterminism: 1.00".data = true := by
  decide

/-- C9: in every trace report, after a common prefix (dump plus totals,
identical for both renderers) the nondeterminism line is
"Nondeterminism: " followed by transitionCount / nonLeafCount rendered to
two decimal places when nonLeafCount > 0 — the rendered value being within
half a unit in the last place of the exact ratio — and the explicit
"Undefined (no non-leaf nodes)" marker when nonLeafCount = 0 (no division
is performed on that branch). -/
theorem claim9_ratio_rendering (levels : List (List Config)) (t n : Nat) :
    (∃ pre : String,
      print_trace_text levels t n =
        pre ++ (if n > 0 then "Nondeterminism: " ++ fmt2 t n ++ "\n"
                else "Nondeterminism: Undefined (no non-leaf nodes)\n") ++ sepLine ∧
      write_trace_text levels t n =
        pre ++ (if n > 0 then "Nondeterminism: " ++ fmt2 t n ++ "\n"
                else "Nondeterminism: Undefined (no non-leaf nodes)\n") ++ sepLine) ∧
    (0 < n →
      2 * (100 * t) ≤ 2 * (round100 t n * n) + n ∧
      2 * (round100 t n * n) ≤ 2 * (100 * t) + n) := by
  constructor
  · refine ⟨"Trace:\n" ++ printTraceLevels 0 levels ++ "Total transitions: "
      ++ toString t ++ "\n" ++ "Total non-leaf nodes: " ++ toString n ++ "\n", ?_, ?_⟩
    · simp [print_trace_text, String.append_assoc]
    · simp [write_trace_text, writeTraceLevels_eq_printTraceLevels,
        String.append_assoc]
  · exact round100_close t n

/-- Witness for C9: the accuracy bound at the concrete report
transitionCount = 3, nonLeafCount = 1. -/
theorem claim9_witness :
    0 < 1 ∧
    (2 * (100 * 3) ≤ 2 * (round100 3 1 * 1) + 1 ∧
     2 * (round100 3 1 * 1) ≤ 2 * (100 * 3) + 1) :=
  ⟨by decide, (claim9_ratio_rendering [] 3 1).2 (by decide)⟩

/-- C10: for every (levels, transitionCount, nonLeafCount) triple, the
renderer used on the depth-exhausted path (`write_trace`) and the renderer
used on the accept/reject path (`print_trace`) produce character-for-
character identical report text. -/
theorem claim10_write_print_agree (levels : List (List Config)) (t n : Nat) :
    write_trace_text levels t n = print_trace_text levels t n := by
  simp [write_trace_text, print_trace_text, writeTraceLevels_eq_printTraceLevels]
